import Mathlib

/-!
# Verification of the tic-tac-toe game (`game.py`)

A shallow embedding of the game logic of `game.py`, together with proofs of
the specified properties.

Modelling conventions:

* A cell of the Python board holds either `None` or a player's mark, which by
  construction of the game is always the string `"X"` or `"O"`.  We embed a
  cell as `Option Mark` with `Mark` the two-element type of marks.
* The Python code identifies cells by the formatted string `f"{i},{j}"`; the
  embedding keeps these coordinate strings (`coordStr`) so that
  `winning_combinations` and the `value_O`/`value_X` membership tests are
  literal transcriptions of the source.
* The board is a total function `Fin 3 → Fin 3 → Option Mark` (the Python
  `GameBoard` is a 3×3 nested list, never resized).
* `status` is a property that returns `"Complete"`/`"Pending"` and, as a side
  effect, may assign `self.winner`.  We embed it as a pure function taking the
  current `winner` value and returning the status string paired with the new
  `winner` value.
* The interactive re-prompt loops (`handle_player_turn`, the mark-selection
  loop in `setup`) consume a list of input lines; exhausting the list without
  an accepted input yields `none` (the Python loop would still be blocked on
  `input()`).
-/

/-- The two marks of the game; the Python code represents them by the strings
`"X"` and `"O"`. -/
inductive Mark where
  | X : Mark
  | O : Mark
deriving DecidableEq, Repr

/-- The string the Python code uses for a mark. -/
def Mark.str : Mark → String
  | .X => "X"
  | .O => "O"

/-- The other mark (used for `player2_mark` and for stating exclusivity). -/
def Mark.other : Mark → Mark
  | .X => .O
  | .O => .X

/-- The board: a 3×3 grid of cells, each `none` (Python `None`) or a mark.
Embeds the `GameBoard` nested list. -/
abbrev Board : Type := Fin 3 → Fin 3 → Option Mark

/-- The freshly initialised board of `GameBoard.__init__`: all cells `None`. -/
def initial_board : Board := fun _ _ => none

/-- Writing a mark into a cell: `board[i][j] = mark` in the Python source. -/
def writeCell (b : Board) (i j : Fin 3) (m : Mark) : Board :=
  fun i' j' => if i' = i ∧ j' = j then some m else b i' j'

/-- The coordinate key `f"{i},{j}"` the Python code builds for cell (i, j). -/
def coordStr (p : Fin 3 × Fin 3) : String :=
  toString p.1.val ++ "," ++ toString p.2.val

/-- The 9 cell coordinates in the row-major order of the `for i ... for j ...`
scan in `GameBoard.status`. -/
def cellCoords : List (Fin 3 × Fin 3) :=
  [(0, 0), (0, 1), (0, 2),
   (1, 0), (1, 1), (1, 2),
   (2, 0), (2, 1), (2, 2)]

/-- `GameBoard.winning_combinations`, in declaration order: the three rows,
the three columns, the down-right diagonal, the down-left diagonal. -/
def winning_combinations : List (List String) :=
  [["0,0", "0,1", "0,2"],
   ["1,0", "1,1", "1,2"],
   ["2,0", "2,1", "2,2"],
   ["0,0", "1,0", "2,0"],
   ["0,1", "1,1", "2,1"],
   ["0,2", "1,2", "2,2"],
   ["0,0", "1,1", "2,2"],
   ["0,2", "1,1", "2,0"]]

/-- The list `value_X` (for `m = X`) or `value_O` (for `m = O`) built by the
cell scan in `GameBoard.status`: the coordinate strings of the cells holding
mark `m`, in scan order. -/
def value_of (b : Board) (m : Mark) : List String :=
  (cellCoords.filter (fun p => decide (b p.1 p.2 = some m))).map coordStr

/-- The `free_cell_exists` flag of `GameBoard.status`: some cell is `None`. -/
def free_cell_exists (b : Board) : Bool :=
  cellCoords.any (fun p => (b p.1 p.2).isNone)

/-- The `for i in self.winning_combinations` loop of `GameBoard.status`:
the first combination that is a subset of `value_O` yields winner `O`
(checked first, as in the source), else a subset of `value_X` yields winner
`X`; otherwise the scan continues.  `none` means no combination matched. -/
def scanCombos (value_O value_X : List String) : List (List String) → Option Mark
  | [] => none
  | c :: rest =>
    if c.all (fun s => decide (s ∈ value_O)) then some Mark.O
    else if c.all (fun s => decide (s ∈ value_X)) then some Mark.X
    else scanCombos value_O value_X rest

/-- `GameBoard.status`: given the board and the current `winner` attribute
value, returns the status string and the `winner` value after the call
(`self.winner` is assigned only when a winning combination is found). -/
def status (b : Board) (w : Option Mark) : String × Option Mark :=
  match scanCombos (value_of b Mark.O) (value_of b Mark.X) winning_combinations with
  | some m => ("Complete", some m)
  | none => if free_cell_exists b then ("Pending", w) else ("Complete", w)

/-- A winning combination is fully owned by mark `m` on board `b`:
every coordinate string of the combination is in `m`'s value set. -/
def fullyOwns (b : Board) (m : Mark) (c : List String) : Prop :=
  ∀ s ∈ c, s ∈ value_of b m

instance (b : Board) (m : Mark) (c : List String) : Decidable (fullyOwns b m c) :=
  inferInstanceAs (Decidable (∀ s ∈ c, s ∈ value_of b m))

-- Basic facts about the cell scan.

theorem mem_cellCoords (p : Fin 3 × Fin 3) : p ∈ cellCoords := by
  rcases p with ⟨i, j⟩
  fin_cases i <;> fin_cases j <;> simp [cellCoords]

theorem coordStr_injective (p q : Fin 3 × Fin 3) (h : coordStr p = coordStr q) :
    p = q := by
  revert h
  rcases p with ⟨i, j⟩
  rcases q with ⟨i', j'⟩
  fin_cases i <;> fin_cases j <;> fin_cases i' <;> fin_cases j' <;> decide

theorem mem_value_of {b : Board} {m : Mark} {s : String} :
    s ∈ value_of b m ↔ ∃ p : Fin 3 × Fin 3, coordStr p = s ∧ b p.1 p.2 = some m := by
  constructor
  · intro hs
    rcases List.mem_map.mp hs with ⟨p, hp, rfl⟩
    exact ⟨p, rfl, by simpa using (List.mem_filter.mp hp).2⟩
  · rintro ⟨p, rfl, hcell⟩
    exact List.mem_map.mpr ⟨p, List.mem_filter.mpr ⟨mem_cellCoords p, by simpa using hcell⟩, rfl⟩

theorem coordStr_mem_value_of {b : Board} {m : Mark} {p : Fin 3 × Fin 3} :
    coordStr p ∈ value_of b m ↔ b p.1 p.2 = some m := by
  rw [mem_value_of]
  constructor
  · rintro ⟨q, hq, hcell⟩
    rcases coordStr_injective q p hq
    exact hcell
  · intro hcell
    exact ⟨p, rfl, hcell⟩

/-- No combination of `winning_combinations` can be fully owned by both marks:
its cells would have to hold two different marks at once. -/
theorem not_fullyOwns_both {b : Board} {c : List String}
    (hc : c ∈ winning_combinations)
    (hO : fullyOwns b Mark.O c) (hX : fullyOwns b Mark.X c) : False := by
  have hne : c ≠ [] := by
    fin_cases hc <;> simp
  rcases List.exists_mem_of_ne_nil c hne with ⟨s, hs⟩
  rcases mem_value_of.mp (hO s hs) with ⟨p, hps, hpO⟩
  rcases mem_value_of.mp (hX s hs) with ⟨q, hqs, hqX⟩
  rcases coordStr_injective p q (hps.trans hqs.symm)
  rw [hpO] at hqX
  exact Option.noConfusion hqX (fun h => Mark.noConfusion h)

theorem free_cell_exists_iff {b : Board} :
    free_cell_exists b = true ↔ ∃ i j : Fin 3, b i j = none := by
  unfold free_cell_exists
  rw [List.any_eq_true]
  constructor
  · rintro ⟨p, _, hp⟩
    exact ⟨p.1, p.2, Option.isNone_iff_eq_none.mp hp⟩
  · rintro ⟨i, j, hij⟩
    exact ⟨(i, j), mem_cellCoords _, Option.isNone_iff_eq_none.mpr hij⟩

/-- If no combination in the list is fully owned by either mark, the scan
returns `none`. -/
theorem scanCombos_eq_none {b : Board} {combos : List (List String)}
    (h : ∀ c ∈ combos, ¬ fullyOwns b Mark.O c ∧ ¬ fullyOwns b Mark.X c) :
    scanCombos (value_of b Mark.O) (value_of b Mark.X) combos = none := by
  induction combos with
  | nil => rfl
  | cons c rest ih =>
    have hc := h c (List.mem_cons_self c rest)
    have hO : ¬ (c.all (fun s => decide (s ∈ value_of b Mark.O)) = true) := by
      rw [List.all_eq_true]
      intro hall
      exact hc.1 (fun s hs => of_decide_eq_true (hall s hs))
    have hX : ¬ (c.all (fun s => decide (s ∈ value_of b Mark.X)) = true) := by
      rw [List.all_eq_true]
      intro hall
      exact hc.2 (fun s hs => of_decide_eq_true (hall s hs))
    unfold scanCombos
    rw [if_neg hO, if_neg hX]
    exact ih (fun c' hc' => h c' (List.mem_cons_of_mem c hc'))

theorem fullyOwns_iff_all {b : Board} {m : Mark} {c : List String} :
    (c.all (fun s => decide (s ∈ value_of b m)) = true) ↔ fullyOwns b m c := by
  rw [List.all_eq_true]
  constructor
  · exact fun h s hs => of_decide_eq_true (h s hs)
  · exact fun h s hs => decide_eq_true (h s hs)

/-- If some combination in the list is fully owned by `m` and no combination in
the list is fully owned by the other mark, the scan returns `some m`. -/
theorem scanCombos_eq_some {b : Board} {m : Mark} {combos : List (List String)}
    {line : List String} (hline : line ∈ combos) (hfull : fullyOwns b m line)
    (hother : ∀ c ∈ combos, ¬ fullyOwns b m.other c) :
    scanCombos (value_of b Mark.O) (value_of b Mark.X) combos = some m := by
  induction combos with
  | nil => cases hline
  | cons c rest ih =>
    unfold scanCombos
    have hco := hother c (List.mem_cons_self c rest)
    have hrest : ∀ c' ∈ rest, ¬ fullyOwns b m.other c' :=
      fun c' hc' => hother c' (List.mem_cons_of_mem c hc')
    cases m with
    | O =>
      by_cases hAO : c.all (fun s => decide (s ∈ value_of b Mark.O)) = true
      · rw [if_pos hAO]
      · rw [if_neg hAO]
        have hAX : ¬ (c.all (fun s => decide (s ∈ value_of b Mark.X)) = true) := by
          rw [fullyOwns_iff_all]
          exact hco
        rw [if_neg hAX]
        rcases List.mem_cons.mp hline with rfl | hmem
        · exact absurd (fullyOwns_iff_all.mpr hfull) hAO
        · exact ih hmem hrest
    | X =>
      have hAO : ¬ (c.all (fun s => decide (s ∈ value_of b Mark.O)) = true) := by
        rw [fullyOwns_iff_all]
        exact hco
      rw [if_neg hAO]
      by_cases hAX : c.all (fun s => decide (s ∈ value_of b Mark.X)) = true
      · rw [if_pos hAX]
      · rw [if_neg hAX]
        rcases List.mem_cons.mp hline with rfl | hmem
        · exact absurd (fullyOwns_iff_all.mpr hfull) hAX
        · exact ih hmem hrest

/-- If the scan returns `some m`, some combination in the list is fully owned
by `m`. -/
theorem exists_of_scanCombos_eq_some {b : Board} {combos : List (List String)}
    {m : Mark}
    (h : scanCombos (value_of b Mark.O) (value_of b Mark.X) combos = some m) :
    ∃ c ∈ combos, fullyOwns b m c := by
  induction combos with
  | nil => cases h
  | cons c rest ih =>
    unfold scanCombos at h
    by_cases hAO : c.all (fun s => decide (s ∈ value_of b Mark.O)) = true
    · rw [if_pos hAO] at h
      rcases Option.some.inj h with rfl
      exact ⟨c, List.mem_cons_self c rest, fullyOwns_iff_all.mp hAO⟩
    · rw [if_neg hAO] at h
      by_cases hAX : c.all (fun s => decide (s ∈ value_of b Mark.X)) = true
      · rw [if_pos hAX] at h
        rcases Option.some.inj h with rfl
        exact ⟨c, List.mem_cons_self c rest, fullyOwns_iff_all.mp hAX⟩
      · rw [if_neg hAX] at h
        rcases ih h with ⟨c', hc', hfull⟩
        exact ⟨c', List.mem_cons_of_mem c hc', hfull⟩

/-- If some combination in the list is fully owned, the scan does not return
`none`. -/
theorem scanCombos_ne_none {b : Board} {combos : List (List String)}
    (hex : ∃ c ∈ combos, fullyOwns b Mark.O c ∨ fullyOwns b Mark.X c) :
    scanCombos (value_of b Mark.O) (value_of b Mark.X) combos ≠ none := by
  rcases hex with ⟨c, hc, hown⟩
  induction combos with
  | nil => cases hc
  | cons c0 rest ih =>
    unfold scanCombos
    by_cases hAO : c0.all (fun s => decide (s ∈ value_of b Mark.O)) = true
    · rw [if_pos hAO]
      exact Option.some_ne_none _
    · rw [if_neg hAO]
      by_cases hAX : c0.all (fun s => decide (s ∈ value_of b Mark.X)) = true
      · rw [if_pos hAX]
        exact Option.some_ne_none _
      · rw [if_neg hAX]
        rcases List.mem_cons.mp hc with rfl | hmem
        · rcases hown with hO | hX
          · exact absurd (fullyOwns_iff_all.mpr hO) hAO
          · exact absurd (fullyOwns_iff_all.mpr hX) hAX
        · exact ih hmem

/-- The scan agrees with `List.find?` over the owned-by-someone predicate: if
some combination in the list (all drawn from `winning_combinations`) is fully
owned, then `find?` locates the first such combination `c`, `c` has a unique
owning mark `m`, and the scan returns `some m`. -/
theorem scanCombos_finds_first {b : Board} {combos : List (List String)}
    (hsub : ∀ c ∈ combos, c ∈ winning_combinations)
    (hex : ∃ c ∈ combos, fullyOwns b Mark.O c ∨ fullyOwns b Mark.X c) :
    ∃ c m,
      combos.find? (fun c => decide (fullyOwns b Mark.O c) || decide (fullyOwns b Mark.X c))
        = some c ∧
      fullyOwns b m c ∧ (∀ m', fullyOwns b m' c → m' = m) ∧
      scanCombos (value_of b Mark.O) (value_of b Mark.X) combos = some m := by
  induction combos with
  | nil => rcases hex with ⟨c, hc, _⟩; cases hc
  | cons c0 rest ih =>
    by_cases hAO : c0.all (fun s => decide (s ∈ value_of b Mark.O)) = true
    · refine ⟨c0, Mark.O, ?_, fullyOwns_iff_all.mp hAO, ?_, ?_⟩
      · exact List.find?_cons_of_pos _
          (by rw [Bool.or_eq_true, decide_eq_true_iff]
              exact Or.inl (fullyOwns_iff_all.mp hAO))
      · intro m' hm'
        cases m' with
        | O => rfl
        | X => exact (not_fullyOwns_both (hsub c0 (List.mem_cons_self c0 rest))
                  (fullyOwns_iff_all.mp hAO) hm').elim
      · unfold scanCombos
        rw [if_pos hAO]
    · by_cases hAX : c0.all (fun s => decide (s ∈ value_of b Mark.X)) = true
      · refine ⟨c0, Mark.X, ?_, fullyOwns_iff_all.mp hAX, ?_, ?_⟩
        · exact List.find?_cons_of_pos _
            (by rw [Bool.or_eq_true, decide_eq_true_iff, decide_eq_true_iff]
                exact Or.inr (fullyOwns_iff_all.mp hAX))
        · intro m' hm'
          cases m' with
          | X => rfl
          | O => exact (not_fullyOwns_both (hsub c0 (List.mem_cons_self c0 rest))
                    hm' (fullyOwns_iff_all.mp hAX)).elim
        · unfold scanCombos
          rw [if_neg hAO, if_pos hAX]
      · have hnot :
            ¬ ((fun c => decide (fullyOwns b Mark.O c) || decide (fullyOwns b Mark.X c)) c0
               = true) := by
          simp only [Bool.or_eq_true, decide_eq_true_eq, not_or]
          exact ⟨fun h => hAO (fullyOwns_iff_all.mpr h), fun h => hAX (fullyOwns_iff_all.mpr h)⟩
        have hex' : ∃ c ∈ rest, fullyOwns b Mark.O c ∨ fullyOwns b Mark.X c := by
          rcases hex with ⟨c, hc, hown⟩
          rcases List.mem_cons.mp hc with rfl | hmem
          · rcases hown with hO | hX
            · exact absurd (fullyOwns_iff_all.mpr hO) hAO
            · exact absurd (fullyOwns_iff_all.mpr hX) hAX
          · exact ⟨c, hmem, hown⟩
        rcases ih (fun c hc => hsub c (List.mem_cons_of_mem c0 hc)) hex' with
          ⟨c, m, hfind, hown, huniq, hscan⟩
        refine ⟨c, m, ?_, hown, huniq, ?_⟩
        · exact (List.find?_cons_of_neg rest hnot).trans hfind
        · unfold scanCombos
          rw [if_neg hAO, if_neg hAX]
          exact hscan

/-! ## The turn-handling loop (`handle_player_turn`) -/

/-- The validation errors reported by `handle_player_turn`:
`formatErr` is "Invalid format. Please use row,col (e.g., 0,1).",
`rangeErr` is "Invalid position. Row and column must be between 0 and 2.",
`occupiedErr` is "Cell already occupied. Choose an empty cell.". -/
inductive TurnError where
  | formatErr : TurnError
  | rangeErr : TurnError
  | occupiedErr : TurnError
deriving DecidableEq, Repr

/-- Python `str.split(sep)` for a one-character separator, at the character
level: splitting an empty string gives one empty field, and every occurrence
of the separator opens a new field. -/
def splitChars (sep : Char) : List Char → List (List Char)
  | [] => [[]]
  | c :: cs =>
    match splitChars sep cs with
    | [] => if c = sep then [[], []] else [[c]]
    | g :: gs => if c = sep then [] :: g :: gs else (c :: g) :: gs

/-- `player_input.split(",")` from `handle_player_turn`. -/
def splitOnComma (s : String) : List String :=
  (splitChars ',' s.data).map String.mk

/-- Python `str.strip()` (as `int` applies it): drop whitespace from both
ends. -/
def trimChars (cs : List Char) : List Char :=
  ((cs.dropWhile Char.isWhitespace).reverse.dropWhile Char.isWhitespace).reverse

/-- Python `int(s)`: strip surrounding whitespace, allow one optional sign,
then require a nonempty run of decimal digits.  (Underscore digit grouping,
a Python nicety irrelevant to the game's inputs, is not modelled.) -/
def parsePyInt (s : String) : Option Int :=
  let t := trimChars s.data
  let (neg, ds) :=
    match t with
    | '-' :: rest => (true, rest)
    | '+' :: rest => (false, rest)
    | _ => (false, t)
  if 0 < ds.length ∧ ds.all Char.isDigit = true then
    let n : Nat := ds.foldl (fun acc c => 10 * acc + (c.toNat - Char.toNat '0')) 0
    some (if neg then -(n : Int) else (n : Int))
  else none

/-- The `try`-block head of `handle_player_turn`:
`pos_i_str, pos_j_str = player_input.split(",")` followed by
`int(pos_i_str)` and `int(pos_j_str)`.  Any `ValueError` (wrong number of
comma-separated fields, or a field that is not an integer literal) is caught
by the `except ValueError` handler, modelled as `none`. -/
def parse_move (player_input : String) : Option (Int × Int) :=
  match splitOnComma player_input with
  | [pos_i_str, pos_j_str] =>
    match parsePyInt pos_i_str, parsePyInt pos_j_str with
    | some pos_i, some pos_j => some (pos_i, pos_j)
    | _, _ => none
  | _ => none

/-- Conversion of a validated integer coordinate to a grid index.  The `% 3`
only serves totality: `validate` applies `toFin3` after its range check, where
`0 ≤ z ≤ 2` makes `toFin3 z = z` exactly. -/
def toFin3 (z : Int) : Fin 3 :=
  ⟨z.toNat % 3, Nat.mod_lt _ (by omega)⟩

/-- One iteration of the `while True` loop of `handle_player_turn` on a given
input line: format check (the `try`/`except ValueError`), then the range
check (`0 <= pos_i <= 2 and 0 <= pos_j <= 2`), then the occupancy check
(`board[pos_i][pos_j] is not None`); `ok (i, j)` is the accepted cell. -/
def validate (b : Board) (player_input : String) : Except TurnError (Fin 3 × Fin 3) :=
  match parse_move player_input with
  | none => .error .formatErr
  | some (pos_i, pos_j) =>
    if 0 ≤ pos_i ∧ pos_i ≤ 2 ∧ 0 ≤ pos_j ∧ pos_j ≤ 2 then
      if b (toFin3 pos_i) (toFin3 pos_j) ≠ none then .error .occupiedErr
      else .ok (toFin3 pos_i, toFin3 pos_j)
    else .error .rangeErr

/-- `handle_player_turn(player, board)` run against a list of input lines:
each rejected line reports its error and re-prompts with the board unchanged;
the first accepted line writes the player's mark and exits the loop.
`none` means every supplied line was rejected (the Python loop would still be
waiting on `input()`); `some (errs, b')` gives the reported errors in order
and the board after the accepted move. -/
def handle_player_turn (mark : Mark) (b : Board) :
    List String → Option (List TurnError × Board)
  | [] => none
  | player_input :: rest =>
    match validate b player_input with
    | .ok (i, j) => some ([], writeCell b i j mark)
    | .error e => (handle_player_turn mark b rest).map (fun r => (e :: r.1, r.2))

/-! ## Mark selection (`setup`) -/

/-- Python `str.upper()`, restricted to ASCII as the game's marks are ASCII:
uppercase every character. -/
def pyUpper (s : String) : String :=
  String.mk (s.data.map Char.toUpper)

/-- The mark-selection loop of `setup`, run against a list of input lines:
each candidate is uppercased and accepted iff it is then `"X"` or `"O"`;
otherwise an invalid-mark error is reported and the next line is read.
`some (mark, k)` gives the accepted (normalized) mark and the number of
invalid-mark errors reported before it; `none` means every line was
rejected. -/
def select_mark : List String → Option (String × Nat)
  | [] => none
  | s :: rest =>
    let player1_mark := pyUpper s
    if player1_mark = "X" ∨ player1_mark = "O" then some (player1_mark, 0)
    else (select_mark rest).map (fun r => (r.1, r.2 + 1))

/-- `player2_mark = "X" if player1_mark=="O" else "O"` in `setup`:
Player 2's mark is computed from Player 1's, with no further prompt. -/
def player2_mark (player1_mark : String) : String :=
  if player1_mark = "O" then "X" else "O"

/-! ## The Python object model of `GameBoard.winner` (for instance sharing) -/

/-- A `GameBoard` instance as a Python object: its cells, and its instance
attribute dictionary's entry for `winner` (`none` while no `self.winner = ...`
assignment has run on this instance; `some w` after one assigned `w`). -/
structure GameBoardObj where
  cells : Board
  winner_attr : Option (Option Mark)

/-- The class attribute `GameBoard.winner = None`.  The program never assigns
to the class attribute (only `self.winner = ...` inside `status`, which per
Python semantics writes the instance dictionary), so it is a constant. -/
def class_winner_default : Option Mark := none

/-- `GameBoard()`: `__init__` fills the cells with `None` and does not touch
`winner`, so the fresh instance has no instance-level `winner` entry. -/
def GameBoardObj.init : GameBoardObj :=
  { cells := initial_board, winner_attr := none }

/-- Python attribute lookup for `board.winner`: the instance dictionary if it
has an entry, else the class attribute. -/
def readWinner (class_winner : Option Mark) (g : GameBoardObj) : Option Mark :=
  g.winner_attr.getD class_winner

/-- The `status` property evaluated on an instance, at the Python object
level: returns the status string, the class attribute after the call, and the
instance after the call.  The winning branches execute `self.winner = m`,
which creates/overwrites the instance dictionary entry; the class attribute
is never assigned. -/
def statusRun (class_winner : Option Mark) (g : GameBoardObj) :
    String × Option Mark × GameBoardObj :=
  match scanCombos (value_of g.cells Mark.O) (value_of g.cells Mark.X)
      winning_combinations with
  | some m => ("Complete", class_winner, { g with winner_attr := some (some m) })
  | none =>
    if free_cell_exists g.cells then ("Pending", class_winner, g)
    else ("Complete", class_winner, g)

instance {ε α : Type} [DecidableEq ε] [DecidableEq α] : DecidableEq (Except ε α) :=
  fun x y =>
    match x, y with
    | .error a, .error b =>
      if h : a = b then isTrue (by rw [h]) else isFalse (fun hc => h (by cases hc; rfl))
    | .ok a, .ok b =>
      if h : a = b then isTrue (by rw [h]) else isFalse (fun hc => h (by cases hc; rfl))
    | .error _, .ok _ => isFalse (fun hc => by cases hc)
    | .ok _, .error _ => isFalse (fun hc => by cases hc)

/-! ## Concrete boards used as test positions -/

/-- Row 0 fully `X`, all other cells empty. -/
def b_rowX : Board := fun i j =>
  match i.val, j.val with
  | 0, _ => some Mark.X
  | _, _ => none

/-- Row 0 fully `X` and row 1 fully `O` (a double three-in-a-row position),
row 2 empty. -/
def b_doubleWin : Board := fun i j =>
  match i.val, j.val with
  | 0, _ => some Mark.X
  | 1, _ => some Mark.O
  | _, _ => none

/-- A full board: row 0 fully `X`, row 1 fully `O`, row 2 = `X X O`.
Both marks fully own a row and no other line is fully owned. -/
def b_fullDoubleWin : Board := fun i j =>
  match i.val, j.val with
  | 0, _ => some Mark.X
  | 1, _ => some Mark.O
  | 2, 0 => some Mark.X
  | 2, 1 => some Mark.X
  | _, _ => some Mark.O

/-- A full board where only `X` fully owns a line (row 0):
`X X X / O O X / O X O`. -/
def b_fullXwin : Board := fun i j =>
  match i.val, j.val with
  | 0, _ => some Mark.X
  | 1, 0 => some Mark.O
  | 1, 1 => some Mark.O
  | 1, 2 => some Mark.X
  | 2, 0 => some Mark.O
  | 2, 1 => some Mark.X
  | _, _ => some Mark.O

/-- A full drawn board: `X O X / X O O / O X X`; no line is fully owned. -/
def b_draw : Board := fun i j =>
  match i.val, j.val with
  | 0, 0 => some Mark.X
  | 0, 1 => some Mark.O
  | 0, 2 => some Mark.X
  | 1, 0 => some Mark.X
  | 1, 1 => some Mark.O
  | 1, 2 => some Mark.O
  | 2, 0 => some Mark.O
  | 2, 1 => some Mark.X
  | _, _ => some Mark.X

/-! ## The claims -/

/-- C1 (counterexample): on the board with row 0 fully `X` and row 1 fully
`O`, the line `row1` is fully held by the single mark `O`, yet `status` does
not record `O` as the winner (it records `X`, whose line appears first):
the claim's "regardless of the contents of the other non-participating
cells" fails when those cells fully hold an earlier line for the other
mark. -/
theorem C1_counterexample :
    ["1,0", "1,1", "1,2"] ∈ winning_combinations ∧
    fullyOwns b_doubleWin Mark.O ["1,0", "1,1", "1,2"] ∧
    status b_doubleWin none ≠ ("Complete", some Mark.O) ∧
    status b_doubleWin none = ("Complete", some Mark.X) := by
  decide

/-- C1 (amended): for every board in which all three cells of one of the 8
declared win lines hold the same single mark `m`, `status` returns
`Complete`; and it records `m` as the winner — regardless of the contents of
the other non-participating cells — provided no win line is fully held by
the other mark. -/
theorem C1_win_line_complete_and_winner (b : Board) (w : Option Mark) (m : Mark)
    (line : List String) (hline : line ∈ winning_combinations)
    (hfull : fullyOwns b m line) :
    (status b w).1 = "Complete" ∧
    ((∀ c ∈ winning_combinations, ¬ fullyOwns b m.other c) →
      status b w = ("Complete", some m)) := by
  constructor
  · have hne : scanCombos (value_of b Mark.O) (value_of b Mark.X) winning_combinations
        ≠ none := by
      apply scanCombos_ne_none
      refine ⟨line, hline, ?_⟩
      cases m with
      | O => exact Or.inl hfull
      | X => exact Or.inr hfull
    unfold status
    cases hscan : scanCombos (value_of b Mark.O) (value_of b Mark.X) winning_combinations with
    | some m0 => rfl
    | none => exact absurd hscan hne
  · intro hother
    unfold status
    rw [scanCombos_eq_some hline hfull hother]

theorem C1_witness : status b_rowX none = ("Complete", some Mark.X) :=
  (C1_win_line_complete_and_winner b_rowX none Mark.X ["0,0", "0,1", "0,2"]
    (by decide) (by decide)).2 (by decide)

/-- C2: if no win line is fully owned by a single mark, then on a board with
all 9 cells occupied `status` returns `Complete` leaving the winner
unchanged (no winner recorded: a draw), and on a board with at least one
empty cell it returns `Pending`. -/
theorem C2_draw_and_pending (b : Board) (w : Option Mark)
    (hnoline : ∀ c ∈ winning_combinations,
      ¬ fullyOwns b Mark.O c ∧ ¬ fullyOwns b Mark.X c) :
    ((∀ i j : Fin 3, b i j ≠ none) → status b w = ("Complete", w)) ∧
    ((∃ i j : Fin 3, b i j = none) → status b w = ("Pending", w)) := by
  have hscan := scanCombos_eq_none hnoline
  constructor
  · intro hocc
    have hfree : free_cell_exists b = false := by
      rw [← Bool.not_eq_true, free_cell_exists_iff]
      rintro ⟨i, j, hij⟩
      exact hocc i j hij
    unfold status
    rw [hscan, hfree]
    rfl
  · intro hfree
    unfold status
    rw [hscan, free_cell_exists_iff.mpr hfree]
    rfl

theorem C2_witness :
    status b_draw none = ("Complete", none) ∧
    status initial_board none = ("Pending", none) :=
  ⟨(C2_draw_and_pending b_draw none (by decide)).1 (by decide),
   (C2_draw_and_pending initial_board none (by decide)).2 ⟨0, 0, rfl⟩⟩

/-- C3: the move loop validates each input as (a) parse as exactly two
comma-separated integers else format error, (b) both in `[0,2]` else range
error, (c) target cell empty else occupancy error; each failure re-prompts
against the unchanged board, and on success the acting player's mark is
written at the given cell.  In particular the input sequence
`"1"`, `"a,b"`, `"0,1"` accepts exactly the third input, writes the mark at
(0,1), and reports two format errors. -/
theorem C3_move_validation (m : Mark) (b : Board) (inp : String) (rest : List String) :
    handle_player_turn m initial_board ["1", "a,b", "0,1"]
      = some ([TurnError.formatErr, TurnError.formatErr], writeCell initial_board 0 1 m) ∧
    (parse_move inp = none → validate b inp = .error .formatErr) ∧
    (∀ vi vj : Int, parse_move inp = some (vi, vj) →
      ¬(0 ≤ vi ∧ vi ≤ 2 ∧ 0 ≤ vj ∧ vj ≤ 2) → validate b inp = .error .rangeErr) ∧
    (∀ (vi vj : Int) (i j : Fin 3), parse_move inp = some (vi, vj) →
      (i.val : Int) = vi → (j.val : Int) = vj →
      (b i j ≠ none → validate b inp = .error .occupiedErr) ∧
      (b i j = none → validate b inp = .ok (i, j))) ∧
    (∀ e, validate b inp = .error e →
      handle_player_turn m b (inp :: rest)
        = (handle_player_turn m b rest).map (fun r => (e :: r.1, r.2))) ∧
    (∀ i j : Fin 3, validate b inp = .ok (i, j) →
      handle_player_turn m b (inp :: rest) = some ([], writeCell b i j m)) := by
  refine ⟨?_, ?_, ?_, ?_, ?_, ?_⟩
  · cases m <;> decide
  · intro h
    simp [validate, h]
  · intro vi vj h hr
    simp [validate, h, hr]
  · intro vi vj i j h hi hj
    have hr : 0 ≤ vi ∧ vi ≤ 2 ∧ 0 ≤ vj ∧ vj ≤ 2 := by
      have h1 := i.isLt
      have h2 := j.isLt
      omega
    have hi' : toFin3 vi = i := by
      apply Fin.ext
      show vi.toNat % 3 = i.val
      have h1 := i.isLt
      omega
    have hj' : toFin3 vj = j := by
      apply Fin.ext
      show vj.toNat % 3 = j.val
      have h2 := j.isLt
      omega
    constructor
    · intro hocc
      simp only [validate, h]
      rw [if_pos hr, hi', hj', if_pos hocc]
    · intro hemp
      simp only [validate, h]
      rw [if_pos hr, hi', hj', if_neg (fun hc => hc hemp)]
  · intro e h
    simp [handle_player_turn, h]
  · intro i j h
    simp [handle_player_turn, h]

theorem C3_witness :
    handle_player_turn Mark.X initial_board ["1", "a,b", "0,1"]
      = some ([TurnError.formatErr, TurnError.formatErr], writeCell initial_board 0 1 Mark.X) ∧
    validate initial_board "9,9" = .error .rangeErr :=
  ⟨(C3_move_validation Mark.X initial_board "0,0" []).1,
   (C3_move_validation Mark.X initial_board "9,9" []).2.2.1 9 9 (by decide) (by decide)⟩

/-- C4: an accepted move changes exactly one cell, which was empty before
the move and holds the acting player's mark after it, while every other cell
is unchanged; a rejected input leaves the board entirely unchanged (the loop
continues against the same board, only recording the error). -/
theorem C4_move_frame (m : Mark) (b : Board) (inp : String) (rest : List String)
    (i j : Fin 3) :
    (validate b inp = .ok (i, j) →
      b i j = none ∧
      writeCell b i j m i j = some m ∧
      (∀ i' j' : Fin 3, ¬(i' = i ∧ j' = j) → writeCell b i j m i' j' = b i' j') ∧
      handle_player_turn m b (inp :: rest) = some ([], writeCell b i j m)) ∧
    (∀ e, validate b inp = .error e →
      handle_player_turn m b (inp :: rest)
        = (handle_player_turn m b rest).map (fun r => (e :: r.1, r.2))) := by
  constructor
  · intro hok
    have hemp : b i j = none := by
      unfold validate at hok
      cases hp : parse_move inp with
      | none => rw [hp] at hok; cases hok
      | some p =>
        rcases p with ⟨vi, vj⟩
        simp only [hp] at hok
        by_cases hr : 0 ≤ vi ∧ vi ≤ 2 ∧ 0 ≤ vj ∧ vj ≤ 2
        · rw [if_pos hr] at hok
          by_cases hocc : b (toFin3 vi) (toFin3 vj) ≠ none
          · rw [if_pos hocc] at hok; cases hok
          · rw [if_neg hocc] at hok
            have hpair : (toFin3 vi, toFin3 vj) = (i, j) := by
              cases hok; rfl
            have hij : toFin3 vi = i ∧ toFin3 vj = j := Prod.mk.injEq .. ▸ hpair
            rw [← hij.1, ← hij.2]
            exact of_not_not hocc
        · rw [if_neg hr] at hok; cases hok
    refine ⟨hemp, ?_, ?_, ?_⟩
    · unfold writeCell
      rw [if_pos ⟨rfl, rfl⟩]
    · intro i' j' hne
      unfold writeCell
      rw [if_neg hne]
    · simp [handle_player_turn, hok]
  · intro e h
    simp [handle_player_turn, h]

theorem C4_witness :
    initial_board 0 1 = none ∧
    writeCell initial_board 0 1 Mark.O 0 1 = some Mark.O ∧
    writeCell initial_board 0 1 Mark.O 0 0 = initial_board 0 0 ∧
    handle_player_turn Mark.O initial_board ["0,1"]
      = some ([], writeCell initial_board 0 1 Mark.O) := by
  have h := (C4_move_frame Mark.O initial_board "0,1" [] 0 1).1 (by decide)
  exact ⟨h.1, h.2.1, h.2.2.1 0 0 (by decide), h.2.2.2⟩

/-- C5: Player 1's mark input is accepted iff it case-insensitively equals
`"X"` or `"O"`, is normalized to uppercase, and Player 2 automatically
receives the other mark without being prompted; any other input yields an
invalid-mark error and a re-prompt.  In particular `"X"` gives Player1 `X`
and Player2 `O`, and `"o"` gives Player1 `O` and Player2 `X`. -/
theorem C5_mark_selection (s : String) (rest : List String) :
    select_mark ["X"] = some ("X", 0) ∧ player2_mark "X" = "O" ∧
    select_mark ["o"] = some ("O", 0) ∧ player2_mark "O" = "X" ∧
    (pyUpper s = "X" ∨ pyUpper s = "O" → select_mark (s :: rest) = some (pyUpper s, 0)) ∧
    (¬(pyUpper s = "X" ∨ pyUpper s = "O") →
      select_mark (s :: rest) = (select_mark rest).map (fun r => (r.1, r.2 + 1))) := by
  refine ⟨by decide, by decide, by decide, by decide, ?_, ?_⟩
  · intro h
    simp only [select_mark, if_pos h]
  · intro h
    simp only [select_mark, if_neg h]

theorem C5_witness :
    select_mark ["a", "x"] = some ("X", 1) ∧ player2_mark "X" = "O" := by
  have h1 := (C5_mark_selection "a" ["x"]).2.2.2.2.2 (by decide)
  have h2 := (C5_mark_selection "x" []).2.2.2.2.1 (by decide)
  refine ⟨?_, (C5_mark_selection "x" []).2.1⟩
  rw [h1, h2]
  decide

/-- C6: in any position where both marks each fully own some win line,
`status` records as winner the mark owning the line that appears first in
the fixed declaration order (rows 0-2, columns 0-2, down-right diagonal,
down-left diagonal): `find?` over `winning_combinations` locates the first
fully-owned line, its owning mark is unique, and that mark is recorded. -/
theorem C6_declaration_order_tiebreak (b : Board) (w : Option Mark)
    (cO cX : List String)
    (hcO : cO ∈ winning_combinations) (hOfull : fullyOwns b Mark.O cO)
    (hcX : cX ∈ winning_combinations) (hXfull : fullyOwns b Mark.X cX) :
    ∃ c m,
      winning_combinations.find?
        (fun c => decide (fullyOwns b Mark.O c) || decide (fullyOwns b Mark.X c))
        = some c ∧
      fullyOwns b m c ∧ (∀ m', fullyOwns b m' c → m' = m) ∧
      status b w = ("Complete", some m) := by
  rcases scanCombos_finds_first (fun c hc => hc) ⟨cO, hcO, Or.inl hOfull⟩ with
    ⟨c, m, h1, h2, h3, h4⟩
  refine ⟨c, m, h1, h2, h3, ?_⟩
  unfold status
  rw [h4]

theorem C6_witness :
    ∃ c m,
      winning_combinations.find?
        (fun c => decide (fullyOwns b_doubleWin Mark.O c)
          || decide (fullyOwns b_doubleWin Mark.X c)) = some c ∧
      fullyOwns b_doubleWin m c ∧ (∀ m', fullyOwns b_doubleWin m' c → m' = m) ∧
      status b_doubleWin none = ("Complete", some m) :=
  C6_declaration_order_tiebreak b_doubleWin none
    ["1,0", "1,1", "1,2"] ["0,0", "0,1", "0,2"]
    (by decide) (by decide) (by decide) (by decide)

/-- C7 (counterexample): on the full board with row 0 fully `X` and row 1
fully `O`, the line `row1` is fully owned by the single mark `O`, yet the
recorded winner is `X`, not `O`: the claim's "that mark recorded as winner"
fails in a double-win position. -/
theorem C7_counterexample :
    (∀ i j : Fin 3, b_fullDoubleWin i j ≠ none) ∧
    ["1,0", "1,1", "1,2"] ∈ winning_combinations ∧
    fullyOwns b_fullDoubleWin Mark.O ["1,0", "1,1", "1,2"] ∧
    status b_fullDoubleWin none ≠ ("Complete", some Mark.O) ∧
    status b_fullDoubleWin none = ("Complete", some Mark.X) := by
  decide

/-- C7 (amended): for every completely full board in which some win line is
fully owned by mark `m`, `status` returns `Complete` with a winner recorded
rather than a no-winner draw — the win-line check decides before the
no-free-cell check; the recorded winner is `m` itself whenever no win line
is fully owned by the other mark. -/
theorem C7_win_check_before_fullness (b : Board) (w : Option Mark) (m : Mark)
    (line : List String) (hboard : ∀ i j : Fin 3, b i j ≠ none)
    (hline : line ∈ winning_combinations) (hfull : fullyOwns b m line) :
    (∃ m', status b w = ("Complete", some m')) ∧
    ((∀ c ∈ winning_combinations, ¬ fullyOwns b m.other c) →
      status b w = ("Complete", some m)) := by
  constructor
  · have hne : scanCombos (value_of b Mark.O) (value_of b Mark.X) winning_combinations
        ≠ none := by
      apply scanCombos_ne_none
      refine ⟨line, hline, ?_⟩
      cases m with
      | O => exact Or.inl hfull
      | X => exact Or.inr hfull
    unfold status
    cases hscan : scanCombos (value_of b Mark.O) (value_of b Mark.X) winning_combinations with
    | some m0 => exact ⟨m0, rfl⟩
    | none => exact absurd hscan hne
  · intro hother
    unfold status
    rw [scanCombos_eq_some hline hfull hother]

theorem C7_witness : status b_fullXwin none = ("Complete", some Mark.X) :=
  (C7_win_check_before_fullness b_fullXwin none Mark.X ["0,0", "0,1", "0,2"]
    (by decide) (by decide) (by decide)).2 (by decide)

/-- C8 (counterexample): overwriting an occupied cell can leave `Complete`:
the board with row 0 fully `X` has status `Complete`, but writing `O` into
the occupied cell (0,0) breaks the only fully-owned line and returns the
status to `Pending` — "writing any mark into any cell" is too strong. -/
theorem C8_counterexample :
    (status b_rowX none).1 = "Complete" ∧
    (status (writeCell b_rowX 0 0 Mark.O) none).1 = "Pending" := by
  decide

/-- C8 (amended): once a board's status is `Complete`, writing any mark into
any empty cell — the only writes a game move can perform — never makes
`status` return `Pending` again. -/
theorem C8_complete_stable (b : Board) (w w' : Option Mark) (i j : Fin 3) (m : Mark)
    (hc : (status b w).1 = "Complete") (hempty : b i j = none) :
    (status (writeCell b i j m) w').1 = "Complete" := by
  unfold status at hc
  cases hscan : scanCombos (value_of b Mark.O) (value_of b Mark.X) winning_combinations with
  | none =>
    simp only [hscan] at hc
    by_cases hfree : free_cell_exists b = true
    · rw [if_pos hfree] at hc
      exact ((show ¬("Pending" : String) = "Complete" by decide) hc).elim
    · exact absurd (free_cell_exists_iff.mpr ⟨i, j, hempty⟩) hfree
  | some m0 =>
    rcases exists_of_scanCombos_eq_some hscan with ⟨c, hcmem, hown⟩
    have hown' : fullyOwns (writeCell b i j m) m0 c := by
      intro s hs
      rcases mem_value_of.mp (hown s hs) with ⟨p, hps, hcell⟩
      refine mem_value_of.mpr ⟨p, hps, ?_⟩
      have hne : ¬(p.1 = i ∧ p.2 = j) := by
        rintro ⟨h1, h2⟩
        rw [h1, h2, hempty] at hcell
        cases hcell
      unfold writeCell
      rw [if_neg hne]
      exact hcell
    have hne : scanCombos (value_of (writeCell b i j m) Mark.O)
        (value_of (writeCell b i j m) Mark.X) winning_combinations ≠ none := by
      apply scanCombos_ne_none
      refine ⟨c, hcmem, ?_⟩
      cases m0 with
      | O => exact Or.inl hown'
      | X => exact Or.inr hown'
    unfold status
    cases hscan' : scanCombos (value_of (writeCell b i j m) Mark.O)
        (value_of (writeCell b i j m) Mark.X) winning_combinations with
    | some m1 => rfl
    | none => exact absurd hscan' hne

theorem C8_witness : (status (writeCell b_rowX 1 1 Mark.O) none).1 = "Complete" :=
  C8_complete_stable b_rowX none none 1 1 Mark.O (by decide) (by decide)

/-- C9: separate `GameBoard` instances do not share winner state: `status`
never changes the class attribute (`self.winner = ...` writes the instance
dictionary), so the winner observed on any other instance is unchanged, and
a freshly constructed `GameBoard` observes `winner = None`. -/
theorem C9_no_shared_winner (class_winner : Option Mark) (g h : GameBoardObj) :
    (statusRun class_winner g).2.1 = class_winner ∧
    readWinner (statusRun class_winner g).2.1 h = readWinner class_winner h ∧
    readWinner class_winner_default GameBoardObj.init = none := by
  have h1 : (statusRun class_winner g).2.1 = class_winner := by
    unfold statusRun
    cases scanCombos (value_of g.cells Mark.O) (value_of g.cells Mark.X)
        winning_combinations with
    | some m => rfl
    | none =>
      by_cases hf : free_cell_exists g.cells = true
      · rw [if_pos hf]
      · rw [if_neg hf]
  exact ⟨h1, by rw [h1], rfl⟩

/-- C10: on a board with no empty cell every input is rejected with an error
and the loop never accepts (it re-prompts forever); when some cell is empty,
there is an input the loop accepts, terminating with the mark written
there. -/
theorem C10_move_loop_termination (b : Board) (m : Mark) :
    ((∀ i j : Fin 3, b i j ≠ none) →
      (∀ inp, ∃ e, validate b inp = .error e) ∧
      (∀ inputs, handle_player_turn m b inputs = none)) ∧
    ((∃ i j : Fin 3, b i j = none) →
      ∃ (inp : String) (i j : Fin 3), b i j = none ∧ validate b inp = .ok (i, j) ∧
        ∀ rest, handle_player_turn m b (inp :: rest)
          = some ([], writeCell b i j m)) := by
  constructor
  · intro hocc
    have hrej : ∀ inp, ∃ e, validate b inp = .error e := by
      intro inp
      cases hp : parse_move inp with
      | none => exact ⟨.formatErr, by simp [validate, hp]⟩
      | some p =>
        rcases p with ⟨vi, vj⟩
        by_cases hr : 0 ≤ vi ∧ vi ≤ 2 ∧ 0 ≤ vj ∧ vj ≤ 2
        · refine ⟨.occupiedErr, ?_⟩
          simp only [validate, hp]
          rw [if_pos hr, if_pos (hocc _ _)]
        · refine ⟨.rangeErr, ?_⟩
          simp only [validate, hp]
          rw [if_neg hr]
    refine ⟨hrej, ?_⟩
    intro inputs
    induction inputs with
    | nil => rfl
    | cons inp rest ih =>
      rcases hrej inp with ⟨e, he⟩
      simp [handle_player_turn, he, ih]
  · rintro ⟨i, j, hij⟩
    have hp : parse_move (coordStr (i, j)) = some ((i.val : Int), (j.val : Int)) := by
      fin_cases i <;> fin_cases j <;> decide
    have hok : validate b (coordStr (i, j)) = .ok (i, j) := by
      have hr : (0 : Int) ≤ i.val ∧ (i.val : Int) ≤ 2 ∧ (0 : Int) ≤ j.val ∧ (j.val : Int) ≤ 2 := by
        have h1 := i.isLt
        have h2 := j.isLt
        refine ⟨?_, ?_, ?_, ?_⟩ <;> omega
      have hi' : toFin3 (i.val : Int) = i := by
        apply Fin.ext
        show ((i.val : Int)).toNat % 3 = i.val
        have h1 := i.isLt
        omega
      have hj' : toFin3 (j.val : Int) = j := by
        apply Fin.ext
        show ((j.val : Int)).toNat % 3 = j.val
        have h2 := j.isLt
        omega
      simp only [validate, hp]
      rw [if_pos hr, hi', hj', if_neg (fun hc => hc hij)]
    exact ⟨coordStr (i, j), i, j, hij, hok, fun rest => by simp [handle_player_turn, hok]⟩

theorem C10_witness :
    handle_player_turn Mark.X b_draw ["0,0"] = none ∧
    (∃ (inp : String) (i j : Fin 3), initial_board i j = none ∧
      validate initial_board inp = .ok (i, j) ∧
      ∀ rest, handle_player_turn Mark.X initial_board (inp :: rest)
        = some ([], writeCell initial_board i j Mark.X)) :=
  ⟨((C10_move_loop_termination b_draw Mark.X).1 (by decide)).2 ["0,0"],
   (C10_move_loop_termination initial_board Mark.X).2 ⟨0, 0, rfl⟩⟩
